import Mathlib

/-!
Verification of the `linear-vscode-todo` extension (`src/extension.ts`).

Lines of text are modelled as `List Char`.  The JavaScript regular
expressions used by the extension are shallowly embedded as executable
matchers with the same leftmost-match / greedy semantics, specialised to
the concrete patterns appearing in the source:

* `/\/\/\s*TODO:/`            (hover + code-action test, rewrite target)
* `/\/\/\s*TODO:\s*(.*)/`     (task-creation capture)
* `/[A-Z]{3,5}-\d+/`          (issue identifier extraction)
* `/\[remote "origin"\][^\[]*url = (.*)$/m`  (git config url)
* `/ref: refs\/heads\/(.*)/`  (git HEAD branch)
* `/^git@([^:]+):/`, `/\.git$/`  (url sanitizer)

`\s` (and `String.prototype.trim`) is modelled over the common JavaScript
whitespace characters; `.` excludes the JavaScript line terminators.
-/

namespace LinearTodo

/-- The JavaScript whitespace class (`\s`, `trim`), restricted to the
characters that can realistically occur in source lines. -/
def isJsWs (c : Char) : Bool :=
  c = ' ' || c = '\t' || c = '\n' || c = '\r' || c = '\x0b' || c = '\x0c' || c = ' '

/-- Characters matched by the JavaScript `.` (everything except line
terminators). -/
def isDotCh (c : Char) : Bool :=
  !(c = '\n' || c = '\r' || c = ' ' || c = ' ')

/-- `startsWith s p` : `p` is an initial segment of `s` (literal regex part). -/
def startsWith : List Char → List Char → Bool
  | _, [] => true
  | [], _ :: _ => false
  | c :: s, d :: p => c = d && startsWith s p

/-- `occursIn pat s` : the literal `pat` occurs somewhere in `s`. -/
def occursIn (pat : List Char) : List Char → Bool
  | [] => startsWith [] pat
  | c :: rest => startsWith (c :: rest) pat || occursIn pat rest

/-- `String.prototype.trim`: drop leading JS whitespace. -/
def trimL (s : List Char) : List Char := s.dropWhile isJsWs

/-- `String.prototype.trim`: drop trailing JS whitespace. -/
def trimR (s : List Char) : List Char := (s.reverse.dropWhile isJsWs).reverse

/-- `String.prototype.trim`. -/
def jsTrim (s : List Char) : List Char := trimR (trimL s)

/-- The literal `TODO:`. -/
def todoLit : List Char := "TODO:".toList

/-- Attempt of `/\/\/\s*TODO:/` anchored at the head of `s`; on success
returns the suffix following the matched text.  (`\s*` is greedy; since
`T` is not whitespace, the maximal whitespace run is the unique choice.) -/
def todoMarkAt : List Char → Option (List Char)
  | c1 :: c2 :: t =>
    if c1 = '/' ∧ c2 = '/' then
      let t2 := t.dropWhile isJsWs
      if startsWith t2 todoLit then some (t2.drop todoLit.length) else none
    else none
  | _ => none

/-- `/\/\/\s*TODO:/.test(line)` — leftmost scan for the marker. -/
def todoTest : List Char → Bool
  | [] => false
  | c :: rest => (todoMarkAt (c :: rest)).isSome || todoTest rest

/-- Attempt of `/\/\/\s*TODO:\s*(.*)/` anchored at the head of `s`,
returning the capture group (the text after the marker, with the greedy
`\s*` run removed, up to a line terminator). -/
def todoCapAt (s : List Char) : Option (List Char) :=
  (todoMarkAt s).map fun post => (post.dropWhile isJsWs).takeWhile isDotCh

/-- `line.match(/\/\/\s*TODO:\s*(.*)/)` — leftmost scan, returning the
capture group `[1]`. -/
def todoCapture : List Char → Option (List Char)
  | [] => none
  | c :: rest =>
    match todoCapAt (c :: rest) with
    | some cap => some cap
    | none => todoCapture rest

/-- Attempt of `/[A-Z]{3,5}-\d+/` anchored at the head of `s`, returning
the matched text.  Greedy `{3,5}` with backtracking collapses to the
single candidate `min 5 (length of the upper-case run)` because shorter
attempts would place an upper-case letter where `-` is required; when the
run exceeds 5 no anchored match exists. -/
def matchIdAt (s : List Char) : Option (List Char) :=
  let letters := s.takeWhile Char.isUpper
  if 3 ≤ letters.length ∧ letters.length ≤ 5 then
    match s.drop letters.length with
    | '-' :: t =>
      let digits := t.takeWhile Char.isDigit
      if digits = [] then none else some (letters ++ '-' :: digits)
    | _ => none
  else none

/-- `line.match(/[A-Z]{3,5}-\d+/)` — leftmost scan, returning the
matched text. -/
def findId : List Char → Option (List Char)
  | [] => none
  | c :: rest =>
    match matchIdAt (c :: rest) with
    | some m => some m
    | none => findId rest

/-- `lineText.replace(/\/\/\s*TODO:/, repl)`: rewrite the leftmost marker
match to `repl`, leaving everything else unchanged (identity when there is
no match).  `$`-escape sequences in the replacement are not modelled: the
replacements used by the extension contain none. -/
def replaceTodoWith (repl : List Char) : List Char → List Char
  | [] => []
  | c :: rest =>
    match todoMarkAt (c :: rest) with
    | some post => repl ++ post
    | none => c :: replaceTodoWith repl rest

/-- The rewrite performed on creation success:
`lineText.replace(/\/\/\s*TODO:/, ` ++ "`// TODO: ${identifier}`" ++ `)`. -/
def replaceTodo (s ident : List Char) : List Char :=
  replaceTodoWith ("// TODO: ".toList ++ ident) s

/-- `lineText.indexOf('TODO:')` (as an `Option`; the call sites only run
it on lines where the marker regex matched, so the literal occurs). -/
def idxOfSub (pat : List Char) : List Char → Option Nat
  | [] => if startsWith [] pat then some 0 else none
  | c :: rest =>
    if startsWith (c :: rest) pat then some 0
    else (idxOfSub pat rest).map (· + 1)

/-- The literal `url = ` of the git-config regex. -/
def urlLit : List Char := "url = ".toList

/-- The literal `[remote "origin"]` of the git-config regex. -/
def originLit : List Char := "[remote \"origin\"]".toList

/-- The part of `/\[remote "origin"\][^\[]*url = (.*)$/m` after the
section literal: greedy `[^\[]*` selects the **last** `url = ` occurrence
inside the `[`-free region, and the capture runs to the end of that line
(after a greedy `(.*)`, the multiline `$` always holds). -/
def findUrlInRegion : List Char → Option (List Char)
  | [] => none
  | c :: rest =>
    if c = '[' then none
    else
      match findUrlInRegion rest with
      | some cap => some cap
      | none =>
        if startsWith (c :: rest) urlLit then
          some (((c :: rest).drop urlLit.length).takeWhile isDotCh)
        else none

/-- Attempt of the git-config regex anchored at the head of `s`. -/
def matchOriginAt (s : List Char) : Option (List Char) :=
  if startsWith s originLit then findUrlInRegion (s.drop originLit.length) else none

/-- `config.match(/\[remote "origin"\][^\[]*url = (.*)$/m)` — leftmost
scan, returning the capture group `[1]`. -/
def matchOrigin : List Char → Option (List Char)
  | [] => none
  | c :: rest =>
    match matchOriginAt (c :: rest) with
    | some cap => some cap
    | none => matchOrigin rest

/-- The literal `ref: refs/heads/` of the HEAD regex. -/
def branchLit : List Char := "ref: refs/heads/".toList

/-- Attempt of `/ref: refs\/heads\/(.*)/` anchored at the head of `s`. -/
def matchBranchAt (s : List Char) : Option (List Char) :=
  if startsWith s branchLit then some ((s.drop branchLit.length).takeWhile isDotCh)
  else none

/-- `head.match(/ref: refs\/heads\/(.*)/)` — leftmost scan, capture `[1]`. -/
def matchBranch : List Char → Option (List Char)
  | [] => none
  | c :: rest =>
    match matchBranchAt (c :: rest) with
    | some cap => some cap
    | none => matchBranch rest

/-- `endsWith s p` : `p` is a final segment of `s` (for `/\.git$/`). -/
def endsWith (s p : List Char) : Bool := startsWith s.reverse p.reverse

/-- The `[^:]+` capture of `/^git@([^:]+):/`: the run of non-`:`
characters following a leading `git@`. -/
def sshHost (url : List Char) : List Char :=
  (url.drop 4).takeWhile (fun c => c ≠ ':')

/-- `url.replace(/^git@([^:]+):/, 'https://$1/')`: the anchored pattern
matches iff the url starts with `git@`, the host run is non-empty, and a
`:` follows it (the run did not consume the whole remainder). -/
def sshToHttps (url : List Char) : List Char :=
  if startsWith url ("git@".toList) ∧ sshHost url ≠ [] ∧
      (sshHost url).length < (url.drop 4).length then
    "https://".toList ++ sshHost url ++ '/' :: (url.drop 4).drop ((sshHost url).length + 1)
  else url

/-- `url.replace(/\.git$/, '')`: strip one trailing `.git`. -/
def stripGitSuffix (u : List Char) : List Char :=
  if endsWith u (".git".toList) then u.take (u.length - 4) else u

/-- `sanitizeGitUrl` from `extension.ts`: rewrite a leading
`git@host:` into `https://host/`, then strip one trailing `.git`. -/
def sanitizeGitUrl (url : List Char) : List Char :=
  stripGitSuffix (sshToHttps url)

/-! ## The editor model

Documents, positions and selections as seen by the extension, and the
observable effects (user messages, remote API calls, configuration
writes, document edits) of each command.  Remote results and user
interactions are supplied as oracles in the environment records. -/

/-- A position: `vscode.Position` (line, character). -/
structure Pos where
  line : Nat
  character : Nat
  deriving DecidableEq

/-- A selection/range: `vscode.Selection`.  The field `stop` models the
`end` property (`end` is a Lean keyword). -/
structure Sel where
  start : Pos
  stop : Pos
  deriving DecidableEq

/-- A document: the list of its lines (lines contain no terminators). -/
structure Doc where
  lines : List (List Char)
  deriving DecidableEq

/-- `document.lineAt(n).text`. -/
def lineAt (d : Doc) (n : Nat) : List Char := d.lines.getD n []

/-- Join lines with `\n` (for `document.getText` over a multi-line range). -/
def joinNl : List (List Char) → List Char
  | [] => []
  | [l] => l
  | l :: ls => l ++ '\n' :: joinNl ls

/-- `document.getText(selection)`. -/
def getText (d : Doc) (s : Sel) : List Char :=
  if s.start.line = s.stop.line then
    ((lineAt d s.start.line).take s.stop.character).drop s.start.character
  else
    joinNl (((lineAt d s.start.line).drop s.start.character) ::
      ((d.lines.drop (s.start.line + 1)).take (s.stop.line - s.start.line - 1) ++
        [(lineAt d s.stop.line).take s.stop.character]))

/-- `linearTodo` configuration values (`vscode.workspace.getConfiguration`). -/
structure Settings where
  apiKey : Option (List Char) := none
  teamId : Option (List Char) := none
  projectId : Option (List Char) := none
  cycleId : Option (List Char) := none
  statusId : Option (List Char) := none
  deriving DecidableEq

/-- A team object returned by `linearClient.teams()`. -/
structure Team where
  id : List Char
  deriving DecidableEq

/-- The argument object of `linearClient.createIssue({...})`.  Its fields
are exactly the properties the source passes: no `cycleId` property is
present in the call. -/
structure IssueCreateInput where
  title : List Char
  teamId : List Char
  stateId : Option (List Char)
  projectId : Option (List Char)
  description : List Char
  deriving DecidableEq

/-- The issue object reachable from a successful payload. -/
structure CreatedIssue where
  identifier : List Char
  url : List Char
  deriving DecidableEq

/-- The payload returned by `createIssue` (`success` flag plus the
lazily-fetched `issue`). -/
structure IssuePayload where
  success : Bool
  issue : Option CreatedIssue
  deriving DecidableEq

/-- `RepoInfo` from `extension.ts`. -/
structure RepoInfo where
  url : Option (List Char) := none
  branch : Option (List Char) := none
  deriving DecidableEq

/-- Filesystem inputs of `getRepositoryInfo`: whether a workspace folder
exists, whether `fs.promises.access(gitDir)` succeeds, and the contents
of `.git/config` and `.git/HEAD` (`none` = the read throws). -/
structure GitFS where
  hasWorkspace : Bool
  gitDirOk : Bool
  configFile : Option (List Char)
  headFile : Option (List Char)
  deriving DecidableEq

/-- Observable effects of the commands. -/
inductive Effect where
  | errorMsg (m : List Char)
  | infoMsg (m : List Char)
  | remoteTeams
  | remoteProjects
  | remoteCycles
  | remoteStates
  | remoteCreateIssue (input : IssueCreateInput)
  | openExternal (url : List Char)
  | docEdit (line : Nat) (newText : List Char)
  | configUpdate (key : List Char) (value : List Char)
  deriving DecidableEq

/-- Effects that are calls to the remote issue tracker. -/
def Effect.isRemote : Effect → Bool
  | .remoteTeams | .remoteProjects | .remoteCycles | .remoteStates
  | .remoteCreateIssue _ => true
  | _ => false

/-- Effects that modify the document. -/
def Effect.isEdit : Effect → Bool
  | .docEdit _ _ => true
  | _ => false

/-- `getRepositoryInfo` from `extension.ts`: every thrown error (missing
workspace handled separately, missing `.git`, unreadable files) is caught
and collapsed to `{}`; a non-matching regex leaves the corresponding
field `undefined`.  The function is total: no error reaches the caller. -/
def getRepositoryInfo (g : GitFS) : RepoInfo :=
  if g.hasWorkspace = false then {}
  else if g.gitDirOk = false then {}
  else
    match g.configFile with
    | none => {}
    | some config =>
      let url? := (matchOrigin config).map jsTrim
      match g.headFile with
      | none => {}
      | some head =>
        { url :=
            match url? with
            | some u => if u = [] then none else some (sanitizeGitUrl u)
            | none => none
          branch := (matchBranch head).map jsTrim }

/-- Interpolation of a possibly-`undefined` value into a template
literal. -/
def optUndef (o : Option (List Char)) : List Char := o.getD "undefined".toList

/-- Decimal rendering of a line number for the deep link. -/
def natToChars (n : Nat) : List Char := (toString n).toList

/-- The issue description built by `createLinearTask`. -/
def buildDescription (todoText highlighted : List Char) (info : RepoInfo)
    (relPath : List Char) (line : Nat) : List Char :=
  "Created from linear vscode TODO: ".toList ++ todoText ++
    "\n\nHighlighted code:\n```\n".toList ++ highlighted ++
    "\n```\n\nSource: ".toList ++ optUndef info.url ++ "/blob/".toList ++
    optUndef info.branch ++ "/".toList ++ relPath ++ "#L".toList ++
    natToChars line

/-- The active editor: its document and current selection. -/
structure EditorState where
  doc : Doc
  sel : Sel
  deriving DecidableEq

/-- Environment of one `createLinearTask` invocation: the module-level
client (`true` iff `linearClient` is set), the active editor, the
configuration store, and oracles for the input box, the remote calls, the
git filesystem and the user's reaction to the success message. -/
structure CreateEnv where
  client : Bool
  editor : Option EditorState
  config : Settings
  teamsNodes : List Team
  promptResult : Option (List Char)
  git : GitFS
  relativeFilePath : List Char
  createResult : Except (List Char) IssuePayload
  openChoice : Bool

/-- `createLinearTask` from `extension.ts`, as the sequence of its
observable effects.  The `teams()` call is made after the title prompt;
`teamId` is taken from `teams.nodes[0]`; `stateId`/`projectId` are read
from the configuration; no cycle id is passed.  An empty `teamsNodes`
makes `team.id` throw inside the `try`, surfacing as the failure
message. -/
def createLinearTask (env : CreateEnv) : List Effect :=
  if env.client = false then
    [Effect.errorMsg "Linear API key is not set. Please set it in the extension settings.".toList]
  else
    match env.editor with
    | none => [Effect.infoMsg "No active editor found".toList]
    | some ed =>
      let lineText := lineAt ed.doc ed.sel.start.line
      match todoCapture lineText with
      | none => [Effect.infoMsg "No TODO: comment found on this line".toList]
      | some cap =>
        let todoText := jsTrim cap
        match env.promptResult with
        | none => []
        | some taskTitle =>
          if taskTitle = [] then []
          else
            Effect.remoteTeams ::
            match env.teamsNodes with
            | [] =>
              [Effect.errorMsg ("Failed to create Linear task: Cannot read properties of undefined (reading 'id')".toList)]
            | team :: _ =>
              let highlighted := jsTrim (getText ed.doc ed.sel)
              let info := getRepositoryInfo env.git
              let input : IssueCreateInput :=
                { title := taskTitle
                  teamId := team.id
                  stateId := env.config.statusId
                  projectId := env.config.projectId
                  description := buildDescription todoText highlighted info
                    env.relativeFilePath ed.sel.start.line }
              Effect.remoteCreateIssue input ::
              match env.createResult with
              | .error msg => [Effect.errorMsg ("Failed to create Linear task: ".toList ++ msg)]
              | .ok payload =>
                if payload.success = false then []
                else
                  Effect.infoMsg ("Linear task created at: ".toList ++
                      optUndef (payload.issue.map (fun i => i.url))) ::
                  let newText := replaceTodo lineText
                    (optUndef (payload.issue.map (fun i => i.identifier)))
                  if env.openChoice then
                    match payload.issue with
                    | none => []
                    | some iss =>
                      [Effect.openExternal iss.url,
                       Effect.docEdit ed.sel.start.line newText]
                  else
                    [Effect.docEdit ed.sel.start.line newText]

/-- A named listing item (team/project/workflow-state node). -/
structure NamedItem where
  name : List Char
  id : List Char
  deriving DecidableEq

/-- A cycle node (`cycle.name` may be `undefined`). -/
structure CycleItem where
  name : Option (List Char)
  id : List Char
  deriving DecidableEq

/-- `configureLinearTeam` from `extension.ts`.  With no client,
`linearClient?.teams()` short-circuits to `undefined` (no remote call)
and the failure message is shown. -/
def configureLinearTeam (client : Bool) (teams : List NamedItem)
    (pick : Option (List Char)) : List Effect :=
  if client = false then [Effect.errorMsg "Failed to fetch teams from Linear".toList]
  else
    Effect.remoteTeams ::
    match pick with
    | none => []
    | some sel =>
      match teams.find? (fun t => t.name == sel) with
      | none => []
      | some t =>
        [Effect.configUpdate "teamId".toList t.id,
         Effect.infoMsg ("Team has been set to: ".toList ++ t.name)]

/-- `configureLinearProject` from `extension.ts`. -/
def configureLinearProject (client : Bool) (projects : List NamedItem)
    (pick : Option (List Char)) : List Effect :=
  if client = false then [Effect.errorMsg "Failed to fetch projects from Linear".toList]
  else
    Effect.remoteProjects ::
    match pick with
    | none => []
    | some sel =>
      match projects.find? (fun p => p.name == sel) with
      | none => []
      | some p =>
        [Effect.configUpdate "projectId".toList p.id,
         Effect.infoMsg ("Project has been set to: ".toList ++ p.name)]

/-- `configureLinearCycle` from `extension.ts`. -/
def configureLinearCycle (client : Bool) (cycles : List CycleItem)
    (pick : Option (List Char)) : List Effect :=
  if client = false then [Effect.errorMsg "Failed to fetch cycles from Linear".toList]
  else
    Effect.remoteCycles ::
    (if cycles.filterMap (fun c => c.name) = [] then
      [Effect.infoMsg "No cycles found in the team".toList]
    else
      match pick with
      | none => []
      | some sel =>
        match cycles.find? (fun c => c.name == some sel) with
        | none => []
        | some c =>
          [Effect.configUpdate "cycleId".toList c.id,
           Effect.infoMsg ("Cycle has been set to: ".toList ++ optUndef c.name)])

/-- `configureLinearTaskStatus` from `extension.ts`. -/
def configureLinearTaskStatus (client : Bool) (statuses : List NamedItem)
    (pick : Option (List Char)) : List Effect :=
  if client = false then [Effect.errorMsg "Failed to fetch statuses from Linear".toList]
  else
    Effect.remoteStates ::
    match pick with
    | none => []
    | some sel =>
      match statuses.find? (fun s => s.name == sel) with
      | none => []
      | some s =>
        [Effect.configUpdate "statusId".toList s.id,
         Effect.infoMsg ("Task status has been set to: ".toList ++ s.name)]

/-- Issue data reachable from the hover lookup (`linearClient?.issue`
plus the `issue.creator` fetch, collapsed into one oracle result; the
fields mirror what the markdown template reads). -/
structure HoverIssue where
  identifier : List Char
  title : List Char
  url : List Char
  creatorName : Option (List Char)
  deriving DecidableEq

/-- The markdown text the hover renders; `undefined` fields are
interpolated literally, as in JavaScript template strings. -/
def hoverMarkdown (iss : Option HoverIssue) : List Char :=
  '[' :: optUndef (iss.map (fun i => i.identifier)) ++
    ' ' :: optUndef (iss.map (fun i => i.title)) ++
    "](".toList ++ optUndef (iss.map (fun i => i.url)) ++
    ") by ".toList ++ optUndef (iss.bind (fun i => i.creatorName))

/-- A hover result: rendered markdown plus the range it is attached to. -/
structure Hover where
  content : List Char
  line : Nat
  rangeStart : Nat
  rangeEnd : Nat
  deriving DecidableEq

/-- `provideHover` from `extension.ts`.  `lookup` is the oracle for the
remote issue/creator fetch; `Except.error` models a thrown error, which
the `catch` swallows (the provider then returns `undefined`).  The
`idxOfSub` branch returning `none` is unreachable: the marker regex
having matched guarantees the literal `TODO:` occurs. -/
def provideHover (lookup : List Char → Except Unit (Option HoverIssue))
    (doc : Doc) (pos : Pos) : Option Hover :=
  let lineText := lineAt doc pos.line
  if todoTest lineText then
    match idxOfSub todoLit lineText with
    | none => none
    | some todoStart =>
      let todoEnd := todoStart + 4
      if pos.character < todoStart ∨ todoEnd < pos.character then none
      else
        match findId lineText with
        | none => none
        | some ident =>
          match lookup ident with
          | .error _ => none
          | .ok iss =>
            some { content := hoverMarkdown iss, line := pos.line,
                   rangeStart := todoStart, rangeEnd := todoEnd }
  else none

/-- The single quick-fix action built by `provideCodeActions`. -/
structure CodeAction where
  title : List Char
  commandTitle : List Char
  commandId : List Char
  deriving DecidableEq

/-- The fixed `Create Linear Task from TODO` action. -/
def createLinearTaskAction : CodeAction :=
  { title := "Create Linear Task from TODO".toList
    commandTitle := "Create Linear Task".toList
    commandId := "extension.createLinearTask".toList }

/-- `provideCodeActions` from `extension.ts`: test the marker regex on
the text of the range's start line only. -/
def provideCodeActions (doc : Doc) (range : Sel) : List CodeAction :=
  let lineText := lineAt doc range.start.line
  if todoTest lineText then [createLinearTaskAction] else []

/-! ## Helper lemmas -/

theorem startsWith_append (p t : List Char) : startsWith (p ++ t) p = true := by
  induction p with
  | nil => cases t <;> rfl
  | cons c p ih => simp [startsWith, ih]

theorem dropWhile_append_all {p : Char → Bool} {ws : List Char} (l : List Char)
    (h : ws.all p = true) : (ws ++ l).dropWhile p = l.dropWhile p := by
  induction ws with
  | nil => rfl
  | cons c ws ih =>
    simp only [List.all_cons, Bool.and_eq_true] at h
    simp [List.dropWhile_cons_of_pos h.1, ih h.2]

theorem takeWhile_all {p : Char → Bool} {l : List Char} (h : l.all p = true) :
    l.takeWhile p = l := by
  induction l with
  | nil => rfl
  | cons c l ih =>
    simp only [List.all_cons, Bool.and_eq_true] at h
    simp [List.takeWhile_cons, h.1, ih h.2]

theorem takeWhile_append_all {p : Char → Bool} {xs : List Char} (ys : List Char)
    (h : xs.all p = true) : (xs ++ ys).takeWhile p = xs ++ ys.takeWhile p := by
  induction xs with
  | nil => rfl
  | cons c xs ih =>
    simp only [List.all_cons, Bool.and_eq_true] at h
    simp [List.takeWhile_cons, h.1, ih h.2]

theorem takeWhile_append_cons_neg {p : Char → Bool} {xs : List Char} {y : Char}
    (ys : List Char) (hxs : xs.all p = true) (hy : p y = false) :
    (xs ++ y :: ys).takeWhile p = xs := by
  rw [takeWhile_append_all _ hxs, List.takeWhile_cons, hy]
  simp

theorem all_dropWhile {p q : Char → Bool} {l : List Char} (h : l.all q = true) :
    (l.dropWhile p).all q = true := by
  induction l with
  | nil => rfl
  | cons c l ih =>
    simp only [List.all_cons, Bool.and_eq_true] at h
    by_cases hc : p c
    · simpa [List.dropWhile_cons_of_pos hc] using ih h.2
    · simpa [List.dropWhile_cons_of_neg hc, List.all_cons] using h

theorem dropWhile_idem {p : Char → Bool} (l : List Char) :
    (l.dropWhile p).dropWhile p = l.dropWhile p := by
  cases h : l.dropWhile p with
  | nil => rfl
  | cons c t =>
    have hc : ¬ p c = true := by
      have := List.head?_dropWhile_not p l
      rw [h] at this
      simpa using this
    simp [List.dropWhile_cons_of_neg hc, h]

theorem trimL_dropWhile (l : List Char) : trimL (l.dropWhile isJsWs) = trimL l := by
  simp [trimL, dropWhile_idem]

theorem trimL_cons_neg {c : Char} (l : List Char) (h : isJsWs c = false) :
    trimL (c :: l) = c :: l := by
  have h' : ¬ isJsWs c = true := by simp [h]
  simp [trimL, List.dropWhile_cons_of_neg h']

theorem trimR_append_single {c : Char} (l : List Char) (h : isJsWs c = false) :
    trimR (l ++ [c]) = l ++ [c] := by
  have h' : ¬ isJsWs c = true := by simp [h]
  simp [trimR, List.dropWhile_cons_of_neg h']

theorem endsWith_append (l p : List Char) : endsWith (l ++ p) p = true := by
  simp [endsWith, startsWith_append]

/-! ## Claims -/

/-- C4: with no API key configured (no client set), every creation or
listing operation — `createLinearTask` and the four configuration
commands that list teams/projects/cycles/workflow states — shows an
error message and aborts, and its effect trace contains no remote
call. -/
theorem c4_no_client_aborts :
    (∀ ed cfg tn pr g rp cr oc,
        createLinearTask ⟨false, ed, cfg, tn, pr, g, rp, cr, oc⟩ =
          [Effect.errorMsg "Linear API key is not set. Please set it in the extension settings.".toList]) ∧
    (∀ teams pick, configureLinearTeam false teams pick =
        [Effect.errorMsg "Failed to fetch teams from Linear".toList]) ∧
    (∀ projects pick, configureLinearProject false projects pick =
        [Effect.errorMsg "Failed to fetch projects from Linear".toList]) ∧
    (∀ cycles pick, configureLinearCycle false cycles pick =
        [Effect.errorMsg "Failed to fetch cycles from Linear".toList]) ∧
    (∀ statuses pick, configureLinearTaskStatus false statuses pick =
        [Effect.errorMsg "Failed to fetch statuses from Linear".toList]) ∧
    Effect.isRemote (Effect.errorMsg "Linear API key is not set. Please set it in the extension settings.".toList) = false :=
  ⟨fun _ _ _ _ _ _ _ _ => rfl, fun _ _ => rfl, fun _ _ => rfl,
    fun _ _ => rfl, fun _ _ => rfl, rfl⟩

/-- C9: the quick-fix provider's output depends only on the text of the
range's start line (in particular not on the end line); it is the single
fixed create-task action when that line matches the marker regex and
empty otherwise. -/
theorem c9_code_actions_start_line :
    (∀ d1 d2 r1 r2, lineAt d1 r1.start.line = lineAt d2 r2.start.line →
        provideCodeActions d1 r1 = provideCodeActions d2 r2) ∧
    (∀ d r, todoTest (lineAt d r.start.line) = true →
        provideCodeActions d r = [createLinearTaskAction]) ∧
    (∀ d r, todoTest (lineAt d r.start.line) = false →
        provideCodeActions d r = []) := by
  refine ⟨fun d1 d2 r1 r2 h => ?_, fun d r h => ?_, fun d r h => ?_⟩
  · simp only [provideCodeActions, h]
  · simp [provideCodeActions, h]
  · simp [provideCodeActions, h]

/-- Witness for C9 at a concrete document and range. -/
theorem c9_witness :
    provideCodeActions ⟨["// TODO: fix me".toList, "other".toList]⟩
        ⟨⟨0, 2⟩, ⟨1, 3⟩⟩ = [createLinearTaskAction] :=
  c9_code_actions_start_line.2.1 _ _ (by decide)

/-- C7: whenever the workspace or the `.git` directory is missing, or
`.git/config` / `.git/HEAD` cannot be read, or both files fail their
regex scans, the git metadata reader returns the empty `RepoInfo` (both
fields absent); being a total function, it raises nothing to the
caller. -/
theorem c7_git_reader_silent (g : GitFS)
    (h : g.hasWorkspace = false ∨ g.gitDirOk = false ∨
        g.configFile = none ∨ g.headFile = none ∨
        ((∀ c, g.configFile = some c → matchOrigin c = none) ∧
         (∀ hd, g.headFile = some hd → matchBranch hd = none))) :
    getRepositoryInfo g = { url := none, branch := none } := by
  obtain ⟨w, d, cf, hf⟩ := g
  simp only at h
  cases w <;> cases d <;> cases cf <;> cases hf <;>
    simp_all [getRepositoryInfo]

/-- Witness for C7 at a concrete filesystem state (missing config). -/
theorem c7_witness :
    getRepositoryInfo ⟨true, true, none, some "ref: refs/heads/main".toList⟩ =
      { url := none, branch := none } :=
  c7_git_reader_silent _ (Or.inr (Or.inr (Or.inl rfl)))

/-- C10: if the title prompt is cancelled (`undefined`) or returns the
empty string, `createLinearTask` returns without any remote call and
without editing the document. -/
theorem c10_empty_title_aborts (env : CreateEnv)
    (h : env.promptResult = none ∨ env.promptResult = some []) :
    (createLinearTask env).all (fun e => !e.isRemote && !e.isEdit) = true := by
  obtain ⟨client, editor, cfg, tn, pr, g, rp, cr, oc⟩ := env
  simp only at h
  cases client with
  | false => simp [createLinearTask, Effect.isRemote, Effect.isEdit]
  | true =>
    cases editor with
    | none => simp [createLinearTask, Effect.isRemote, Effect.isEdit]
    | some ed =>
      cases hcap : todoCapture (lineAt ed.doc ed.sel.start.line) with
      | none => simp [createLinearTask, hcap, Effect.isRemote, Effect.isEdit]
      | some cap =>
        rcases h with h | h <;> subst h <;>
          simp [createLinearTask, hcap, Effect.isRemote, Effect.isEdit]

/-- Witness for C10 at a concrete environment (cancelled prompt). -/
theorem c10_witness :
    (createLinearTask ⟨true,
        some ⟨⟨["// TODO: fix me".toList]⟩, ⟨⟨0, 0⟩, ⟨0, 0⟩⟩⟩, {},
        [⟨"t1".toList⟩], none, ⟨false, false, none, none⟩, "a.ts".toList,
        Except.ok ⟨true, none⟩, false⟩).all
      (fun e => !e.isRemote && !e.isEdit) = true :=
  c10_empty_title_aborts _ (Or.inl rfl)

/-! ## Marker-matching lemmas -/

theorem todoMarkAt_cons_ne {c : Char} (l : List Char) (h : ¬ c = '/') :
    todoMarkAt (c :: l) = none := by
  cases l with
  | nil => rfl
  | cons d t => simp [todoMarkAt, h]

theorem todoCapture_append_no_slash {pre : List Char} (t : List Char)
    (h : ∀ c ∈ pre, ¬ c = '/') :
    todoCapture (pre ++ t) = todoCapture t := by
  induction pre with
  | nil => rfl
  | cons c pre ih =>
    have hc : ¬ c = '/' := h c (by simp)
    cases ht : pre ++ t with
    | nil => simp [todoCapture, todoCapAt, todoMarkAt_cons_ne _ hc, ← ht,
        ih fun d hd => h d (by simp [hd])]
    | cons d l => simp [todoCapture, todoCapAt, todoMarkAt_cons_ne _ hc, ← ht,
        ih fun d hd => h d (by simp [hd])]

theorem todoCapture_cons_some {c : Char} {l cap : List Char}
    (h : todoCapAt (c :: l) = some cap) : todoCapture (c :: l) = some cap := by
  simp [todoCapture, h]

theorem todoMarkAt_marker {ws : List Char} (rest : List Char)
    (hws : ws.all isJsWs = true) :
    todoMarkAt ('/' :: '/' :: (ws ++ todoLit ++ rest)) = some rest := by
  have h1 : (ws ++ (todoLit ++ rest)).dropWhile isJsWs = todoLit ++ rest := by
    rw [dropWhile_append_all _ hws]
    exact List.dropWhile_cons_of_neg (by decide)
  have h2 : (todoLit ++ rest).drop todoLit.length = rest := List.drop_left _ _
  simp [todoMarkAt, h1, startsWith_append, h2]

/-- C6: a line of the form `<pre>//<ws>TODO:<rest>` — two slashes,
optional whitespace, the literal `TODO:`, then the description — where
the marker is the first one on the line (no `/` occurs before it) is
matched, and the extracted task text is the description trimmed of
surrounding whitespace. -/
theorem c6_matcher_extracts (pre ws rest : List Char)
    (hpre : ∀ c ∈ pre, ¬ c = '/') (hws : ws.all isJsWs = true)
    (hrest : rest.all isDotCh = true) :
    (todoCapture (pre ++ '/' :: '/' :: (ws ++ todoLit ++ rest))).map jsTrim =
      some (jsTrim rest) := by
  rw [todoCapture_append_no_slash _ hpre]
  have hmark := todoMarkAt_marker rest hws
  have hcap : todoCapAt ('/' :: '/' :: (ws ++ todoLit ++ rest)) =
      some ((rest.dropWhile isJsWs).takeWhile isDotCh) := by
    unfold todoCapAt
    rw [hmark]
    rfl
  rw [todoCapture_cons_some hcap]
  have hsub : (rest.dropWhile isJsWs).takeWhile isDotCh = rest.dropWhile isJsWs :=
    takeWhile_all (all_dropWhile hrest)
  simp only [Option.map_some', hsub, jsTrim, trimL_dropWhile]

/-- Witness for C6 at a concrete line. -/
theorem c6_witness :
    (todoCapture ("x := 1 ".toList ++ '/' :: '/' ::
        ("  ".toList ++ todoLit ++ "  fix me ".toList))).map jsTrim =
      some (jsTrim "  fix me ".toList) :=
  c6_matcher_extracts _ _ _ (by decide) (by decide) (by decide)

/-! ## Identifier and rewrite lemmas (C3) -/

/-- Decidable side condition: the rest of the line does not begin with a
digit (otherwise the digits merge into the inserted identifier when
re-matching). -/
def headNotDigit (l : List Char) : Bool :=
  match l.head? with
  | some c => !c.isDigit
  | none => true

theorem replaceTodoWith_cons_some {c : Char} {l post repl : List Char}
    (h : todoMarkAt (c :: l) = some post) :
    replaceTodoWith repl (c :: l) = repl ++ post := by
  simp [replaceTodoWith, h]

theorem findId_cons_some {c : Char} {l m : List Char}
    (h : matchIdAt (c :: l) = some m) : findId (c :: l) = some m := by
  simp [findId, h]

theorem findId_skip_todo_marker (t : List Char) :
    findId ("// TODO: ".toList ++ t) = findId t := rfl

theorem matchIdAt_ident {L D : List Char} (rest : List Char)
    (hL3 : 3 ≤ L.length) (hL5 : L.length ≤ 5) (hLup : L.all Char.isUpper = true)
    (hD : D ≠ []) (hDdig : D.all Char.isDigit = true)
    (hrest : headNotDigit rest = true) :
    matchIdAt ((L ++ '-' :: D) ++ rest) = some (L ++ '-' :: D) := by
  have hletters : ((L ++ '-' :: D) ++ rest).takeWhile Char.isUpper = L := by
    rw [List.append_assoc, List.cons_append]
    exact takeWhile_append_cons_neg _ hLup (by decide)
  have hdrop : ((L ++ '-' :: D) ++ rest).drop L.length = '-' :: (D ++ rest) := by
    rw [List.append_assoc, List.cons_append]
    exact List.drop_left L ('-' :: (D ++ rest))
  have hdig : (D ++ rest).takeWhile Char.isDigit = D := by
    cases rest with
    | nil => simpa using takeWhile_all hDdig
    | cons r rs =>
      have hr : r.isDigit = false := by
        simp only [headNotDigit, List.head?] at hrest
        simpa using hrest
      exact takeWhile_append_cons_neg _ hDdig hr
  unfold matchIdAt
  rw [hletters]
  rw [if_pos ⟨hL3, hL5⟩, hdrop]
  simp only [hdig]
  rw [if_neg hD]

/-- C3 counterexample: the line `ABC-1 // TODO: x` matches the TODO
pattern (the capture is `x`) and `XYZ-2` is a well-formed identifier, yet
after the rewrite, identifier extraction on the rewritten line returns
`ABC-1`, not the created identifier `XYZ-2`. -/
theorem c3_counterexample :
    todoCapture "ABC-1 // TODO: x".toList = some "x".toList ∧
    matchIdAt "XYZ-2".toList = some "XYZ-2".toList ∧
    replaceTodo "ABC-1 // TODO: x".toList "XYZ-2".toList =
      "ABC-1 // TODO: XYZ-2 x".toList ∧
    findId (replaceTodo "ABC-1 // TODO: x".toList "XYZ-2".toList) =
      some "ABC-1".toList ∧
    "ABC-1".toList ≠ "XYZ-2".toList := by
  refine ⟨by decide, by decide, by decide, by decide, by decide⟩

/-- C3 (amended): for a line that **begins** with the marker —
`//<ws>TODO:<rest>` with nothing before the slashes — and an identifier
`ID` of the shape `[A-Z]{3,5}-\d+`, provided `<rest>` does not start
with a digit, the rewrite yields `// TODO: ID<rest>` with the rest of
the line preserved verbatim, and identifier extraction on the rewritten
line yields `ID`. -/
theorem c3_roundtrip (ws rest L D : List Char)
    (hws : ws.all isJsWs = true)
    (hL3 : 3 ≤ L.length) (hL5 : L.length ≤ 5) (hLup : L.all Char.isUpper = true)
    (hD : D ≠ []) (hDdig : D.all Char.isDigit = true)
    (hrest : headNotDigit rest = true) :
    replaceTodo ('/' :: '/' :: (ws ++ todoLit ++ rest)) (L ++ '-' :: D) =
      "// TODO: ".toList ++ (L ++ '-' :: D) ++ rest ∧
    findId (replaceTodo ('/' :: '/' :: (ws ++ todoLit ++ rest)) (L ++ '-' :: D)) =
      some (L ++ '-' :: D) := by
  have hmark := todoMarkAt_marker rest hws
  have hrw : replaceTodo ('/' :: '/' :: (ws ++ todoLit ++ rest)) (L ++ '-' :: D) =
      "// TODO: ".toList ++ (L ++ '-' :: D) ++ rest := by
    unfold replaceTodo
    rw [replaceTodoWith_cons_some hmark, List.append_assoc]
  refine ⟨hrw, ?_⟩
  rw [hrw, List.append_assoc, findId_skip_todo_marker]
  cases L with
  | nil => simp at hL3
  | cons a L' =>
    exact findId_cons_some (matchIdAt_ident rest hL3 hL5 hLup hD hDdig hrest)

/-- Witness for C3 (amended) at a concrete line and identifier. -/
theorem c3_witness :
    replaceTodo ('/' :: '/' :: (" ".toList ++ todoLit ++ " fix me".toList))
        ("XYZ".toList ++ '-' :: "12".toList) =
      "// TODO: ".toList ++ ("XYZ".toList ++ '-' :: "12".toList) ++ " fix me".toList ∧
    findId (replaceTodo ('/' :: '/' :: (" ".toList ++ todoLit ++ " fix me".toList))
        ("XYZ".toList ++ '-' :: "12".toList)) =
      some ("XYZ".toList ++ '-' :: "12".toList) :=
  c3_roundtrip _ _ _ _ (by decide) (by decide) (by decide) (by decide)
    (by decide) (by decide) (by decide)

/-- C8: the hover provider produces a hover only when the cursor position
lies within the span `[i, i+4]` starting at the first occurrence of
`TODO:` in the line; any returned hover carries exactly that span.
(Contrapositive: for a position outside the span the provider returns
`undefined`, whatever the rest of the line contains.) -/
theorem c8_hover_requires_span (lookup : List Char → Except Unit (Option HoverIssue))
    (doc : Doc) (pos : Pos) (h : Hover)
    (hsome : provideHover lookup doc pos = some h) :
    ∃ i, idxOfSub todoLit (lineAt doc pos.line) = some i ∧
      i ≤ pos.character ∧ pos.character ≤ i + 4 ∧
      h.rangeStart = i ∧ h.rangeEnd = i + 4 := by
  simp only [provideHover] at hsome
  split at hsome
  · split at hsome
    · exact absurd hsome (by simp)
    · next i hidx =>
        split at hsome
        · exact absurd hsome (by simp)
        · next hin =>
            push_neg at hin
            split at hsome
            · exact absurd hsome (by simp)
            · next ident hident =>
                split at hsome
                · exact absurd hsome (by simp)
                · next iss hok =>
                    refine ⟨i, hidx, hin.1, hin.2, ?_, ?_⟩ <;>
                      simp only [Option.some_inj] at hsome <;>
                      rw [← hsome]
  · exact absurd hsome (by simp)

/-- Witness for C8: a concrete hover is produced at character 4 of a
line whose `TODO:` starts at index 3. -/
theorem c8_witness :
    ∃ i, idxOfSub todoLit (lineAt ⟨["// TODO: ABC-1 fix".toList]⟩ (0 : Nat)) = some i ∧
      i ≤ 4 ∧ 4 ≤ i + 4 ∧
      (⟨hoverMarkdown (some ⟨"ABC-1".toList, "t".toList, "u".toList,
          some "n".toList⟩), 0, 3, 7⟩ : Hover).rangeStart = i ∧
      (⟨hoverMarkdown (some ⟨"ABC-1".toList, "t".toList, "u".toList,
          some "n".toList⟩), 0, 3, 7⟩ : Hover).rangeEnd = i + 4 :=
  c8_hover_requires_span
    (fun _ => Except.ok (some ⟨"ABC-1".toList, "t".toList, "u".toList, some "n".toList⟩))
    ⟨["// TODO: ABC-1 fix".toList]⟩ ⟨0, 4⟩ _ (by decide)

/-! ## Task-creation claims (C1, C2) -/

/-- The `createIssue` argument object assembled by `createLinearTask` on
the path that reaches issue creation (title from the prompt, team from
the head of the listing, state/project ids from the configuration). -/
def createInput (env : CreateEnv) (ed : EditorState) (cap t : List Char)
    (team : Team) : IssueCreateInput :=
  { title := t
    teamId := team.id
    stateId := env.config.statusId
    projectId := env.config.projectId
    description := buildDescription (jsTrim cap)
      (jsTrim (getText ed.doc ed.sel)) (getRepositoryInfo env.git)
      env.relativeFilePath ed.sel.start.line }

/-- The editor state of `envC1`: a one-line document, caret selection. -/
def edC1 : EditorState :=
  ⟨⟨["// TODO: fix parsing".toList]⟩, ⟨⟨0, 0⟩, ⟨0, 0⟩⟩⟩

/-- A concrete environment whose configuration store holds a selected
team id and cycle id different from anything the teams listing returns. -/
def envC1 : CreateEnv :=
  { client := true
    editor := some edC1
    config := { teamId := some "team-configured".toList
                projectId := some "proj-1".toList
                cycleId := some "cycle-configured".toList
                statusId := some "state-1".toList }
    teamsNodes := [⟨"team-first".toList⟩]
    promptResult := some "fix parsing".toList
    git := ⟨false, false, none, none⟩
    relativeFilePath := "src/a.ts".toList
    createResult := Except.ok ⟨true, some ⟨"ENG-1".toList, "https://linear.app/i/ENG-1".toList⟩⟩
    openChoice := false }

/-- C1 counterexample: with team id `team-configured` (and a cycle id)
selected in the configuration store, the issue actually created carries
the id of the first listed team, not the configured one — so the created
issue is not assigned the configured team id (and the call passes no
cycle id at all). -/
theorem c1_counterexample :
    envC1.config.teamId = some "team-configured".toList ∧
    envC1.config.cycleId = some "cycle-configured".toList ∧
    ((createLinearTask envC1).any fun e =>
        match e with
        | .remoteCreateIssue _ => true
        | _ => false) = true ∧
    ((createLinearTask envC1).any fun e =>
        match e with
        | .remoteCreateIssue i => i.teamId == "team-configured".toList
        | _ => false) = false ∧
    ((createLinearTask envC1).any fun e =>
        match e with
        | .remoteCreateIssue i => i.teamId == "team-first".toList
        | _ => false) = true := by
  refine ⟨rfl, rfl, by decide, by decide, by decide⟩

/-- C1 (amended): on the path that reaches issue creation, the created
issue is assigned the configured state id and project id (read from the
configuration store), but its team id is the id of the **first team
returned by the `teams()` listing** — the configured team id is ignored —
and no cycle id is passed (the call's argument object has no cycle
field). -/
theorem c1_issue_assignment (env : CreateEnv) (ed : EditorState)
    (cap t : List Char) (team : Team) (ts : List Team)
    (hc : env.client = true) (hed : env.editor = some ed)
    (hcap : todoCapture (lineAt ed.doc ed.sel.start.line) = some cap)
    (hpr : env.promptResult = some t) (ht : t ≠ [])
    (htm : env.teamsNodes = team :: ts) :
    ∃ input, Effect.remoteCreateIssue input ∈ createLinearTask env ∧
      input.teamId = team.id ∧
      input.stateId = env.config.statusId ∧
      input.projectId = env.config.projectId ∧
      input.title = t := by
  refine ⟨createInput env ed cap t team, ?_, rfl, rfl, rfl, rfl⟩
  simp only [createLinearTask, hc, hed, hcap, hpr, htm, if_neg ht]
  simp [List.mem_cons, createInput]

/-- Witness for C1 (amended) at the concrete environment `envC1`. -/
theorem c1_witness :
    ∃ input, Effect.remoteCreateIssue input ∈ createLinearTask envC1 ∧
      input.teamId = (⟨"team-first".toList⟩ : Team).id ∧
      input.stateId = envC1.config.statusId ∧
      input.projectId = envC1.config.projectId ∧
      input.title = "fix parsing".toList :=
  c1_issue_assignment envC1 edC1 "fix parsing".toList "fix parsing".toList
    ⟨"team-first".toList⟩ [] rfl rfl (by decide) rfl (by decide) rfl

/-- The editor state of `envC2`: a two-line document and a selection
running from line 0 into line 1. -/
def edC2 : EditorState :=
  ⟨⟨["// TODO: fix parsing".toList, "const x = 1".toList]⟩, ⟨⟨0, 0⟩, ⟨1, 5⟩⟩⟩

/-- A concrete environment whose selection spans two distinct lines with
distinct texts, the first of which carries a TODO marker. -/
def envC2 : CreateEnv :=
  { client := true
    editor := some edC2
    config := {}
    teamsNodes := [⟨"team-first".toList⟩]
    promptResult := some "fix parsing".toList
    git := ⟨false, false, none, none⟩
    relativeFilePath := "src/a.ts".toList
    createResult := Except.ok ⟨true, some ⟨"ENG-1".toList, "https://linear.app/i/ENG-1".toList⟩⟩
    openChoice := false }

/-- C2 counterexample: with a selection whose start line (0) and end
line (1) are distinct lines with distinct texts, the operation does not
abort: it performs the remote `teams()` and `createIssue` calls and
edits the document. -/
theorem c2_counterexample :
    (∃ ed, envC2.editor = some ed ∧ ed.sel.start.line ≠ ed.sel.stop.line ∧
        lineAt ed.doc ed.sel.start.line ≠ lineAt ed.doc ed.sel.stop.line) ∧
    Effect.remoteTeams ∈ createLinearTask envC2 ∧
    ((createLinearTask envC2).any fun e =>
        match e with
        | .remoteCreateIssue _ => true
        | _ => false) = true ∧
    ((createLinearTask envC2).any fun e => e.isEdit) = true := by
  refine ⟨⟨_, rfl, by decide, by decide⟩, by decide, by decide, by decide⟩

/-- C2 (amended): a selection spanning distinct lines is **not**
rejected — no equality check between start-line and end-line exists.
Whenever the start line matches the TODO pattern and a title is entered,
creation proceeds to the remote calls, and the (multi-line) selected
text is embedded in the created issue's description rather than
rejected. -/
theorem c2_multiline_not_rejected (env : CreateEnv) (ed : EditorState)
    (cap t : List Char) (team : Team) (ts : List Team)
    (hc : env.client = true) (hed : env.editor = some ed)
    (_hml : ed.sel.start.line ≠ ed.sel.stop.line)
    (hcap : todoCapture (lineAt ed.doc ed.sel.start.line) = some cap)
    (hpr : env.promptResult = some t) (ht : t ≠ [])
    (htm : env.teamsNodes = team :: ts) :
    Effect.remoteTeams ∈ createLinearTask env ∧
    ∃ input, Effect.remoteCreateIssue input ∈ createLinearTask env ∧
      input.description = buildDescription (jsTrim cap)
        (jsTrim (getText ed.doc ed.sel)) (getRepositoryInfo env.git)
        env.relativeFilePath ed.sel.start.line := by
  constructor
  · simp only [createLinearTask, hc, hed, hcap, hpr, htm, if_neg ht]
    simp
  · refine ⟨createInput env ed cap t team, ?_, rfl⟩
    simp only [createLinearTask, hc, hed, hcap, hpr, htm, if_neg ht]
    simp [List.mem_cons, createInput]

/-- Witness for C2 (amended) at the concrete environment `envC2`. -/
theorem c2_witness :
    Effect.remoteTeams ∈ createLinearTask envC2 ∧
    ∃ input, Effect.remoteCreateIssue input ∈ createLinearTask envC2 ∧
      input.description = buildDescription (jsTrim "fix parsing".toList)
        (jsTrim (getText edC2.doc edC2.sel)) (getRepositoryInfo envC2.git)
        envC2.relativeFilePath edC2.sel.start.line :=
  c2_multiline_not_rejected envC2 edC2 "fix parsing".toList "fix parsing".toList
    ⟨"team-first".toList⟩ [] rfl rfl (by decide) (by decide) rfl (by decide) rfl

/-! ## Git-config extraction lemmas (C5) -/

/-- The `git@github.com:<path>.git` url value of a config entry. -/
def gitUrlValue (path : List Char) : List Char :=
  "git@github.com:".toList ++ (path ++ ".git".toList)

/-- A git config text: arbitrary prefix, the `[remote "origin"]` section
header, section content `mid`, then a `url = git@github.com:<path>.git`
entry followed by `post`. -/
def gitConfigText (pre mid path post : List Char) : List Char :=
  pre ++ (originLit ++ (mid ++ (urlLit ++ (gitUrlValue path ++ post))))

theorem matchOrigin_skip (pre s : List Char)
    (h : ∀ i, i < pre.length → startsWith ((pre ++ s).drop i) originLit = false) :
    matchOrigin (pre ++ s) = matchOrigin s := by
  induction pre with
  | nil => simp
  | cons c pre ih =>
    have h0 : startsWith (c :: (pre ++ s)) originLit = false := by
      have := h 0 (by simp)
      simpa using this
    have hA : matchOriginAt (c :: (pre ++ s)) = none := by
      simp [matchOriginAt, h0]
    have hrec : ∀ i, i < pre.length → startsWith ((pre ++ s).drop i) originLit = false := by
      intro i hi
      have := h (i + 1) (by simpa using Nat.succ_lt_succ hi)
      simpa [List.cons_append] using this
    calc matchOrigin ((c :: pre) ++ s) = matchOrigin (c :: (pre ++ s)) := by
          rw [List.cons_append]
    _ = matchOrigin (pre ++ s) := by simp [matchOrigin, hA]
    _ = matchOrigin s := ih hrec

theorem findUrl_none {l : List Char} (h : occursIn urlLit l = false) :
    findUrlInRegion l = none := by
  induction l with
  | nil => rfl
  | cons c rest ih =>
    simp only [occursIn, Bool.or_eq_false_iff] at h
    simp [findUrlInRegion, ih h.2, h.1]

theorem findUrl_cons_hit {c : Char} {l : List Char} (hc : ¬ c = '[')
    (hrec : findUrlInRegion l = none) (hsw : startsWith (c :: l) urlLit = true) :
    findUrlInRegion (c :: l) =
      some (((c :: l).drop urlLit.length).takeWhile isDotCh) := by
  simp [findUrlInRegion, hc, hrec, hsw]

theorem findUrl_cons_pass {c : Char} {l cap : List Char} (hc : ¬ c = '[')
    (hrec : findUrlInRegion l = some cap) : findUrlInRegion (c :: l) = some cap := by
  simp [findUrlInRegion, hc, hrec]

theorem findUrl_main (mid rest : List Char)
    (hmid : mid.all (fun c => c ≠ '[') = true)
    (hafter : occursIn urlLit ("rl = ".toList ++ rest) = false) :
    findUrlInRegion (mid ++ (urlLit ++ rest)) = some (rest.takeWhile isDotCh) := by
  induction mid with
  | nil =>
    have hnone : findUrlInRegion ("rl = ".toList ++ rest) = none := findUrl_none hafter
    have hsw : startsWith ('u' :: ("rl = ".toList ++ rest)) urlLit = true :=
      startsWith_append urlLit rest
    have hdrop : ('u' :: ("rl = ".toList ++ rest)).drop urlLit.length = rest :=
      List.drop_left urlLit rest
    show findUrlInRegion ('u' :: ("rl = ".toList ++ rest)) = some (rest.takeWhile isDotCh)
    rw [findUrl_cons_hit (by decide) hnone hsw, hdrop]
  | cons c mid' ih =>
    simp only [List.all_cons, Bool.and_eq_true] at hmid
    have hc : ¬ c = '[' := by simpa using hmid.1
    rw [List.cons_append]
    exact findUrl_cons_pass hc (ih hmid.2)

theorem matchOriginAt_lit (tail : List Char) :
    matchOriginAt (originLit ++ tail) = findUrlInRegion tail := by
  simp [matchOriginAt, startsWith_append, List.drop_left]

theorem matchOrigin_cons_some {c : Char} {l cap : List Char}
    (h : matchOriginAt (c :: l) = some cap) : matchOrigin (c :: l) = some cap := by
  simp [matchOrigin, h]

theorem stripGitSuffix_append (l : List Char) :
    stripGitSuffix (l ++ ".git".toList) = l := by
  rw [stripGitSuffix, if_pos (endsWith_append l (".git".toList))]
  have hl2 : (l ++ ".git".toList).length - 4 = l.length := by
    have h6 : (".git".toList : List Char).length = 4 := by decide
    simp [List.length_append, h6]
  rw [hl2]
  exact List.take_left _ _

theorem sanitize_gitUrlValue (path : List Char) :
    sanitizeGitUrl (gitUrlValue path) = "https://github.com/".toList ++ path := by
  have hv : gitUrlValue path =
      "git@".toList ++ ("github.com:".toList ++ (path ++ ".git".toList)) := by
    have h1 : ("git@github.com:".toList : List Char) =
        "git@".toList ++ "github.com:".toList := by decide
    rw [gitUrlValue, h1, List.append_assoc]
  have hstart : startsWith (gitUrlValue path) ("git@".toList) = true := by
    rw [hv]; exact startsWith_append _ _
  have hdrop4 : (gitUrlValue path).drop 4 =
      "github.com:".toList ++ (path ++ ".git".toList) := by
    rw [hv]
    have h4 : ("git@".toList : List Char).length = 4 := by decide
    rw [← h4]
    exact List.drop_left _ _
  have hT : "github.com:".toList ++ (path ++ ".git".toList) =
      "github.com".toList ++ (':' :: (path ++ ".git".toList)) := by
    have h2 : ("github.com:".toList : List Char) =
        "github.com".toList ++ [':'] := by decide
    rw [h2, List.append_assoc]
    rfl
  have hhost : sshHost (gitUrlValue path) = "github.com".toList := by
    rw [sshHost, hdrop4, hT]
    exact takeWhile_append_cons_neg _ (by decide) (by decide)
  have hdrop11 : ("github.com:".toList ++ (path ++ ".git".toList)).drop 11 =
      path ++ ".git".toList := by
    have h3 : ("github.com:".toList : List Char).length = 11 := by decide
    rw [← h3]
    exact List.drop_left _ _
  have hlen : ((gitUrlValue path).drop 4).length = 15 + path.length := by
    rw [hdrop4]
    have h5 : ("github.com:".toList : List Char).length = 11 := by decide
    have h6 : (".git".toList : List Char).length = 4 := by decide
    simp [List.length_append, h5, h6]
    omega
  have h10 : (sshHost (gitUrlValue path)).length = 10 := by rw [hhost]; decide
  have hssh : sshToHttps (gitUrlValue path) =
      ("https://github.com/".toList ++ path) ++ ".git".toList := by
    rw [sshToHttps, if_pos ⟨hstart, by rw [hhost]; decide, by rw [h10, hlen]; omega⟩]
    rw [hhost, hdrop4]
    have hgl : ("github.com".toList : List Char).length = 10 := by decide
    rw [hgl]
    have h11 : (10 : Nat) + 1 = 11 := rfl
    rw [h11, hdrop11]
    have h7 : ("https://github.com/".toList : List Char) =
        "https://".toList ++ ("github.com".toList ++ ['/']) := by decide
    rw [h7]
    simp [List.append_assoc]
  rw [sanitizeGitUrl, hssh]
  exact stripGitSuffix_append _

/-- C5: a git config text `<pre>[remote "origin"]<mid>url = git@github.com:<path>.git<post>`
— an `[remote "origin"]` section followed (within the section, `mid`
containing no `[`) by a `url = git@github.com:<path>.git` entry — has
its origin url extracted and sanitized to `https://github.com/<path>`:
the `git@host:path` form is rewritten to `https://host/path` and the
trailing `.git` is stripped.  Side conditions pin the regex scan: no
earlier `[remote "origin"]` occurrence, no later `url = ` occurrence in
the section, no line terminator inside `path`, and the entry ends its
line. -/
theorem c5_origin_url_sanitized (pre mid path post head : List Char)
    (hpre : ∀ i, i < pre.length →
        startsWith ((gitConfigText pre mid path post).drop i) originLit = false)
    (hmid : mid.all (fun c => c ≠ '[') = true)
    (hafter : occursIn urlLit ("rl = ".toList ++ (gitUrlValue path ++ post)) = false)
    (hpath : path.all isDotCh = true)
    (hpost : post = [] ∨ ∃ p', post = '\n' :: p') :
    getRepositoryInfo ⟨true, true, some (gitConfigText pre mid path post), some head⟩ =
      { url := some ("https://github.com/".toList ++ path)
        branch := (matchBranch head).map jsTrim } := by
  have hvall : (gitUrlValue path).all isDotCh = true := by
    simp only [gitUrlValue, List.all_append, Bool.and_eq_true]
    exact ⟨by decide, hpath, by decide⟩
  have htw : (gitUrlValue path ++ post).takeWhile isDotCh = gitUrlValue path := by
    rcases hpost with h | ⟨p', h⟩
    · subst h
      simpa using takeWhile_all hvall
    · subst h
      exact takeWhile_append_cons_neg _ hvall (by decide)
  have hfind : findUrlInRegion (mid ++ (urlLit ++ (gitUrlValue path ++ post))) =
      some (gitUrlValue path) := by
    rw [findUrl_main mid _ hmid hafter, htw]
  have hmo : matchOrigin (gitConfigText pre mid path post) = some (gitUrlValue path) := by
    rw [gitConfigText, matchOrigin_skip pre _ (by
      intro i hi
      have := hpre i hi
      rwa [gitConfigText] at this)]
    exact matchOrigin_cons_some ((matchOriginAt_lit _).trans hfind)
  have htrim : jsTrim (gitUrlValue path) = gitUrlValue path := by
    have hL : trimL (gitUrlValue path) = gitUrlValue path :=
      trimL_cons_neg _ (by decide)
    have hsplit : gitUrlValue path =
        ("git@github.com:".toList ++ path ++ ['.', 'g', 'i']) ++ ['t'] := by
      have h4 : (".git".toList : List Char) = ['.', 'g', 'i', 't'] := by decide
      rw [gitUrlValue, h4]
      simp [List.append_assoc]
    have hR : trimR (gitUrlValue path) = gitUrlValue path := by
      rw [hsplit]
      exact trimR_append_single _ (by decide)
    rw [jsTrim, hL, hR]
  have hne : gitUrlValue path ≠ [] := List.cons_ne_nil _ _
  simp only [getRepositoryInfo, hmo, Option.map_some', htrim]
  simp [hne, sanitize_gitUrlValue]

/-- Witness for C5 at the spec's concrete example config (with a `[core]`
section before the origin section). -/
theorem c5_witness :
    getRepositoryInfo ⟨true, true,
        some (gitConfigText "[core]\n\tbare = false\n".toList "\n\t".toList
          "org/repo".toList "\n".toList),
        some "ref: refs/heads/main".toList⟩ =
      { url := some ("https://github.com/".toList ++ "org/repo".toList)
        branch := (matchBranch "ref: refs/heads/main".toList).map jsTrim } :=
  c5_origin_url_sanitized "[core]\n\tbare = false\n".toList "\n\t".toList
    "org/repo".toList "\n".toList "ref: refs/heads/main".toList
    (by decide) (by decide) (by decide) (by decide) (Or.inr ⟨[], rfl⟩)

end LinearTodo
